import Mathlib

/-!
# System settings controller (core/app/api/v2/setting.go)

A shallow embedding of the handlers of `setting.go`.  A handler receives a
`gin.Context`; here the context together with everything a handler can reach
(the setting service, the mfa package, the filesystem) is a `World`: the state
of the collaborators, the trace of the calls made to them and the responses
written so far.  The collaborators whose code is outside the file (the setting
service, `mfa`, `os.Stat`, `base64`, the constants) are the fields of `Env`.
-/

set_option autoImplicit false

/-- An `error` value: its message. -/
abbrev Err := String

/-- Payload handed to `helper.SuccessWithData` (`none` is Go's `nil`). -/
abbrev Data := String

/-! ## Request bodies (package `dto`): the fields `setting.go` refers to -/

/-- Body of `UpdateSetting` and `UpdateMenu`. -/
structure dto.SettingUpdate where
  Key : String
  Value : String
deriving DecidableEq, Repr

/-- Body of `UpdateTerminalSetting`; passed to the service as a whole. -/
structure dto.TerminalInfo where
  fields : List (String × String)
deriving DecidableEq, Repr

/-- Body of `UpdateProxy`. -/
structure dto.ProxyUpdate where
  ProxyUrl : String
  ProxyType : String
  ProxyPort : String
  ProxyPasswd : String
deriving DecidableEq, Repr

/-- Body of `UpdatePassword` and `HandlePasswordExpired`. -/
structure dto.PasswordUpdate where
  OldPassword : String
  NewPassword : String
deriving DecidableEq, Repr

/-- Body of `UpdateSSL`; passed to the service as a whole. -/
structure dto.SSLUpdate where
  SSL : String
  fields : List (String × String)
deriving DecidableEq, Repr

/-- Body of `UpdateBindInfo`; passed to the service as a whole. -/
structure dto.BindInfo where
  Ipv6 : String
  BindAddress : String
deriving DecidableEq, Repr

/-- Body of `UpdatePort`. -/
structure dto.PortUpdate where
  ServerPort : Nat
deriving DecidableEq, Repr

/-- Body of `LoadMFA`. -/
structure dto.MfaRequest where
  Title : String
  Interval : Int
deriving DecidableEq, Repr

/-- Body of `MFABind`. -/
structure dto.MfaCredential where
  Secret : String
  Code : String
  Interval : String
deriving DecidableEq, Repr

/-! ## Calls and responses -/

/-- An operation of `settingService`, with its arguments. -/
inductive ServiceCall where
  | GetSettingInfo
  | GetTerminalInfo
  | Update (key value : String)
  | UpdateTerminal (req : dto.TerminalInfo)
  | UpdateProxy (req : dto.ProxyUpdate)
  | UpdatePassword (old new : String)
  | UpdateSSL (req : dto.SSLUpdate)
  | LoadFromCert
  | LoadInterfaceAddr
  | UpdateBindInfo (req : dto.BindInfo)
  | UpdatePort (port : Nat)
  | HandlePasswordExpired (old new : String)
deriving DecidableEq, Repr

/-- A call a handler makes to a collaborator: the setting service, the `mfa`
package or the filesystem. -/
inductive Call where
  | service (op : ServiceCall)
  | GetOtp (username title : String) (interval : Int)
  | ValidCode (code interval secret : String)
  | Stat (name : String)
deriving DecidableEq, Repr

/-- What a handler writes to the client. -/
inductive Response where
  | SuccessWithData (data : Option Data)
  | ErrorWithDetail (code : Int) (msgKey : String) (err : Err)
  | BadRequest (err : Err)
  | File (filepath : String)
deriving DecidableEq, Repr

/-- The collaborators of the handlers, over a state `σ` that they own.  None of
them is defined in `setting.go`. -/
structure Env (σ : Type) where
  /-- The constant `constant.CodeErrInternalServer`. -/
  CodeErrInternalServer : Int
  /-- The constant `constant.ErrTypeInternalServer`. -/
  ErrTypeInternalServer : String
  /-- The configuration value `global.CONF.System.BaseDir`. -/
  BaseDir : String
  /-- The setting service: result and new state of each operation. -/
  settingService : ServiceCall → σ → Except Err Data × σ
  /-- The function `mfa.GetOtp`. -/
  GetOtp : String → String → Int → σ → Except Err Data × σ
  /-- The function `mfa.ValidCode`; it reads the clock. -/
  ValidCode : String → String → String → σ → Bool
  /-- The function `os.Stat`, reduced to its error; it reads the filesystem. -/
  Stat : String → σ → Option Err
  /-- The function `base64.StdEncoding.DecodeString`, followed by the
  conversion of the bytes to a string. -/
  DecodeString : String → Except Err String

/-- The context of a request and what is behind it. -/
structure World (σ : Type) where
  /-- State of the collaborators (settings store, files, live configuration). -/
  state : σ
  /-- Calls made to the collaborators, oldest first. -/
  calls : List Call
  /-- Responses written, oldest first. -/
  responses : List Response

variable {σ : Type}

/-- Writes a response. -/
def World.respond (c : World σ) (r : Response) : World σ :=
  { c with responses := c.responses ++ [r] }

/-- Records a call and the state it leaves. -/
def World.called (c : World σ) (call : Call) (s : σ) : World σ :=
  { c with state := s, calls := c.calls ++ [call] }

/-- The helper `helper.SuccessWithData(c, data)`. -/
def helper.SuccessWithData (c : World σ) (data : Option Data) : World σ :=
  c.respond (.SuccessWithData data)

/-- The helper `helper.ErrorWithDetail(c, code, msgKey, err)`. -/
def helper.ErrorWithDetail (c : World σ) (code : Int) (msgKey : String) (err : Err) : World σ :=
  c.respond (.ErrorWithDetail code msgKey err)

/-- The helper `helper.BadRequest(c, err)`. -/
def helper.BadRequest (c : World σ) (err : Err) : World σ :=
  c.respond (.BadRequest err)

/-- The gin method `c.File(filepath)`: serves the file at that path. -/
def World.File (c : World σ) (filepath : String) : World σ :=
  c.respond (.File filepath)

/-- A call of an operation of `settingService`. -/
def settingService.call (env : Env σ) (op : ServiceCall) (c : World σ) : Except Err Data × World σ :=
  let r := env.settingService op c.state
  (r.1, c.called (.service op) r.2)

/-- The call `settingService.Update(key, value)`: returns the error, if any. -/
def settingService.Update (env : Env σ) (key value : String) (c : World σ) : Option Err × World σ :=
  match settingService.call env (.Update key value) c with
  | (.error err, c) => (some err, c)
  | (.ok _, c) => (none, c)

/-- The call `mfa.GetOtp(username, title, interval)`. -/
def mfa.GetOtp (env : Env σ) (username title : String) (interval : Int) (c : World σ) :
    Except Err Data × World σ :=
  let r := env.GetOtp username title interval c.state
  (r.1, c.called (.GetOtp username title interval) r.2)

/-- The call `mfa.ValidCode(code, interval, secret)`. -/
def mfa.ValidCode (env : Env σ) (code interval secret : String) (c : World σ) : Bool × World σ :=
  (env.ValidCode code interval secret c.state, c.called (.ValidCode code interval secret) c.state)

/-- The call `os.Stat(name)`, reduced to its error. -/
def os.Stat (env : Env σ) (name : String) (c : World σ) : Option Err × World σ :=
  (env.Stat name c.state, c.called (.Stat name) c.state)

/-! ## Go's `path.Join` (standard library), on the components of a path -/

/-- Splits a path at every slash (the pieces may be empty). -/
def path.split : List Char → List (List Char)
  | [] => [[]]
  | ch :: rest =>
    match path.split rest with
    | [] => [[ch]]
    | piece :: pieces => if ch = '/' then [] :: piece :: pieces else (ch :: piece) :: pieces

/-- One step of `path.Clean` over the cleaned components so far (last one
first): empty and `.` elements vanish, `..` removes the element before it,
is dropped at the root and kept at the start of a relative path. -/
def path.cleanStep (rooted : Bool) (done : List (List Char)) (piece : List Char) : List (List Char) :=
  if piece = [] ∨ piece = ['.'] then done
  else if piece = ['.', '.'] then
    match done with
    | [] => if rooted then [] else [piece]
    | last :: before => if last = ['.', '.'] then piece :: done else before
  else piece :: done

/-- The pieces of a path put together again, with a slash between them. -/
def path.unsplit : List (List Char) → List Char
  | [] => []
  | [piece] => piece
  | piece :: rest => piece ++ '/' :: path.unsplit rest

/-- The function `path.Clean`: the shortest path equivalent to the argument. -/
def path.Clean (p : String) : String :=
  let rooted : Bool := p.data.head? = some '/'
  let pieces := ((path.split p.data).foldl (path.cleanStep rooted) []).reverse
  let body := String.mk (path.unsplit pieces)
  if rooted then "/" ++ body else if pieces = [] then "." else body

/-- The function `path.Join`: the non-empty elements joined by slashes, then
cleaned; the empty string when there is no non-empty element. -/
def path.Join (elem : List String) : String :=
  match elem.filter (fun e => e ≠ "") with
  | [] => ""
  | kept => path.Clean (String.intercalate "/" kept)

/-- A path element that `path.Clean` keeps as it is: non-empty, without a
slash, and neither `.` nor `..`. -/
def path.plain (piece : List Char) : Prop :=
  piece ≠ [] ∧ '/' ∉ piece ∧ piece ≠ ['.'] ∧ piece ≠ ['.', '.']

/-- Whether a path element is plain can be computed. -/
instance path.plain.decidable (piece : List Char) : Decidable (path.plain piece) :=
  inferInstanceAs (Decidable (piece ≠ [] ∧ '/' ∉ piece ∧ piece ≠ ['.'] ∧ piece ≠ ['.', '.']))

/-- The clean rooted path with the given elements, as `/a/b/c`. -/
def path.rooted (pieces : List (List Char)) : String :=
  String.mk ('/' :: path.unsplit pieces)

/-! ## The handlers -/

/-- Handler `GetSettingInfo`. -/
def BaseApi.GetSettingInfo (env : Env σ) (c : World σ) : World σ :=
  match settingService.call env .GetSettingInfo c with
  | (.error err, c) =>
    helper.ErrorWithDetail c env.CodeErrInternalServer env.ErrTypeInternalServer err
  | (.ok setting, c) => helper.SuccessWithData c (some setting)

/-- Handler `GetTerminalSettingInfo`. -/
def BaseApi.GetTerminalSettingInfo (env : Env σ) (c : World σ) : World σ :=
  match settingService.call env .GetTerminalInfo c with
  | (.error err, c) =>
    helper.ErrorWithDetail c env.CodeErrInternalServer env.ErrTypeInternalServer err
  | (.ok setting, c) => helper.SuccessWithData c (some setting)

/-- Handler `GetSystemAvailable`. -/
def BaseApi.GetSystemAvailable (_env : Env σ) (c : World σ) : World σ :=
  helper.SuccessWithData c none

/-- Handler `UpdateSetting`; `bind` is what `helper.CheckBindAndValidate(&req, c)`
yields: the request it bound, or its error. -/
def BaseApi.UpdateSetting (env : Env σ) (bind : Except Err dto.SettingUpdate) (c : World σ) :
    World σ :=
  match bind with
  | .error _ => c
  | .ok req =>
    match settingService.Update env req.Key req.Value c with
    | (some err, c) =>
      helper.ErrorWithDetail c env.CodeErrInternalServer env.ErrTypeInternalServer err
    | (none, c) => helper.SuccessWithData c none

/-- Handler `UpdateTerminalSetting`. -/
def BaseApi.UpdateTerminalSetting (env : Env σ) (bind : Except Err dto.TerminalInfo)
    (c : World σ) : World σ :=
  match bind with
  | .error _ => c
  | .ok req =>
    match settingService.call env (.UpdateTerminal req) c with
    | (.error err, c) =>
      helper.ErrorWithDetail c env.CodeErrInternalServer env.ErrTypeInternalServer err
    | (.ok _, c) => helper.SuccessWithData c none

/-- Handler `UpdateProxy`. -/
def BaseApi.UpdateProxy (env : Env σ) (bind : Except Err dto.ProxyUpdate) (c : World σ) :
    World σ :=
  match bind with
  | .error _ => c
  | .ok req =>
    let finish (req : dto.ProxyUpdate) : World σ :=
      match settingService.call env (.UpdateProxy req) c with
      | (.error err, c) =>
        helper.ErrorWithDetail c env.CodeErrInternalServer env.ErrTypeInternalServer err
      | (.ok _, c) => helper.SuccessWithData c none
    if req.ProxyPasswd.length ≠ 0 ∧ req.ProxyType.length ≠ 0 then
      match env.DecodeString req.ProxyPasswd with
      | .error err => helper.BadRequest c err
      | .ok pass => finish { req with ProxyPasswd := pass }
    else finish req

/-- Handler `UpdateMenu`. -/
def BaseApi.UpdateMenu (env : Env σ) (bind : Except Err dto.SettingUpdate) (c : World σ) :
    World σ :=
  match bind with
  | .error _ => c
  | .ok req =>
    match settingService.Update env req.Key req.Value c with
    | (some err, c) =>
      helper.ErrorWithDetail c env.CodeErrInternalServer env.ErrTypeInternalServer err
    | (none, c) => helper.SuccessWithData c none

/-- Handler `UpdatePassword`. -/
def BaseApi.UpdatePassword (env : Env σ) (bind : Except Err dto.PasswordUpdate) (c : World σ) :
    World σ :=
  match bind with
  | .error _ => c
  | .ok req =>
    match settingService.call env (.UpdatePassword req.OldPassword req.NewPassword) c with
    | (.error err, c) =>
      helper.ErrorWithDetail c env.CodeErrInternalServer env.ErrTypeInternalServer err
    | (.ok _, c) => helper.SuccessWithData c none

/-- Handler `UpdateSSL`. -/
def BaseApi.UpdateSSL (env : Env σ) (bind : Except Err dto.SSLUpdate) (c : World σ) : World σ :=
  match bind with
  | .error _ => c
  | .ok req =>
    match settingService.call env (.UpdateSSL req) c with
    | (.error err, c) =>
      helper.ErrorWithDetail c env.CodeErrInternalServer env.ErrTypeInternalServer err
    | (.ok _, c) => helper.SuccessWithData c none

/-- Handler `LoadFromCert`. -/
def BaseApi.LoadFromCert (env : Env σ) (c : World σ) : World σ :=
  match settingService.call env .LoadFromCert c with
  | (.error err, c) =>
    helper.ErrorWithDetail c env.CodeErrInternalServer env.ErrTypeInternalServer err
  | (.ok info, c) => helper.SuccessWithData c (some info)

/-- Handler `DownloadSSL`. -/
def BaseApi.DownloadSSL (env : Env σ) (c : World σ) : World σ :=
  let pathItem := path.Join [env.BaseDir, "1panel/secret/server.crt"]
  match os.Stat env pathItem c with
  | (some err, c) =>
    helper.ErrorWithDetail c env.CodeErrInternalServer env.ErrTypeInternalServer err
  | (none, c) => c.File pathItem

/-- Handler `LoadInterfaceAddr`. -/
def BaseApi.LoadInterfaceAddr (env : Env σ) (c : World σ) : World σ :=
  match settingService.call env .LoadInterfaceAddr c with
  | (.error err, c) =>
    helper.ErrorWithDetail c env.CodeErrInternalServer env.ErrTypeInternalServer err
  | (.ok data, c) => helper.SuccessWithData c (some data)

/-- Handler `UpdateBindInfo`. -/
def BaseApi.UpdateBindInfo (env : Env σ) (bind : Except Err dto.BindInfo) (c : World σ) :
    World σ :=
  match bind with
  | .error _ => c
  | .ok req =>
    match settingService.call env (.UpdateBindInfo req) c with
    | (.error err, c) =>
      helper.ErrorWithDetail c env.CodeErrInternalServer env.ErrTypeInternalServer err
    | (.ok _, c) => helper.SuccessWithData c none

/-- Handler `UpdatePort`. -/
def BaseApi.UpdatePort (env : Env σ) (bind : Except Err dto.PortUpdate) (c : World σ) : World σ :=
  match bind with
  | .error _ => c
  | .ok req =>
    match settingService.call env (.UpdatePort req.ServerPort) c with
    | (.error err, c) =>
      helper.ErrorWithDetail c env.CodeErrInternalServer env.ErrTypeInternalServer err
    | (.ok _, c) => helper.SuccessWithData c none

/-- Handler `HandlePasswordExpired`. -/
def BaseApi.HandlePasswordExpired (env : Env σ) (bind : Except Err dto.PasswordUpdate)
    (c : World σ) : World σ :=
  match bind with
  | .error _ => c
  | .ok req =>
    match settingService.call env (.HandlePasswordExpired req.OldPassword req.NewPassword) c with
    | (.error err, c) =>
      helper.ErrorWithDetail c env.CodeErrInternalServer env.ErrTypeInternalServer err
    | (.ok _, c) => helper.SuccessWithData c none

/-- Handler `LoadMFA`. -/
def BaseApi.LoadMFA (env : Env σ) (bind : Except Err dto.MfaRequest) (c : World σ) : World σ :=
  match bind with
  | .error _ => c
  | .ok req =>
    match mfa.GetOtp env "admin" req.Title req.Interval c with
    | (.error err, c) =>
      helper.ErrorWithDetail c env.CodeErrInternalServer env.ErrTypeInternalServer err
    | (.ok otp, c) => helper.SuccessWithData c (some otp)

/-- Handler `MFABind`. -/
def BaseApi.MFABind (env : Env σ) (bind : Except Err dto.MfaCredential) (c : World σ) : World σ :=
  match bind with
  | .error _ => c
  | .ok req =>
    match mfa.ValidCode env req.Code req.Interval req.Secret c with
    | (false, c) =>
      helper.ErrorWithDetail c env.CodeErrInternalServer env.ErrTypeInternalServer
        "code is not valid"
    | (true, c) =>
      match settingService.Update env "MFAInterval" req.Interval c with
      | (some err, c) =>
        helper.ErrorWithDetail c env.CodeErrInternalServer env.ErrTypeInternalServer err
      | (none, c) =>
        match settingService.Update env "MFAStatus" "enable" c with
        | (some err, c) =>
          helper.ErrorWithDetail c env.CodeErrInternalServer env.ErrTypeInternalServer err
        | (none, c) =>
          match settingService.Update env "MFASecret" req.Secret c with
          | (some err, c) =>
            helper.ErrorWithDetail c env.CodeErrInternalServer env.ErrTypeInternalServer err
          | (none, c) => helper.SuccessWithData c none

/-- A request to one of the routes of `setting.go`, with what
`helper.CheckBindAndValidate` yields for its body where it has one. -/
inductive Handler where
  | GetSettingInfo
  | GetTerminalSettingInfo
  | GetSystemAvailable
  | UpdateSetting (bind : Except Err dto.SettingUpdate)
  | UpdateTerminalSetting (bind : Except Err dto.TerminalInfo)
  | UpdateProxy (bind : Except Err dto.ProxyUpdate)
  | UpdateMenu (bind : Except Err dto.SettingUpdate)
  | UpdatePassword (bind : Except Err dto.PasswordUpdate)
  | UpdateSSL (bind : Except Err dto.SSLUpdate)
  | LoadFromCert
  | DownloadSSL
  | LoadInterfaceAddr
  | UpdateBindInfo (bind : Except Err dto.BindInfo)
  | UpdatePort (bind : Except Err dto.PortUpdate)
  | HandlePasswordExpired (bind : Except Err dto.PasswordUpdate)
  | LoadMFA (bind : Except Err dto.MfaRequest)
  | MFABind (bind : Except Err dto.MfaCredential)

/-- Runs the handler of a route. -/
def Handler.run (env : Env σ) : Handler → World σ → World σ
  | .GetSettingInfo => BaseApi.GetSettingInfo env
  | .GetTerminalSettingInfo => BaseApi.GetTerminalSettingInfo env
  | .GetSystemAvailable => BaseApi.GetSystemAvailable env
  | .UpdateSetting bind => BaseApi.UpdateSetting env bind
  | .UpdateTerminalSetting bind => BaseApi.UpdateTerminalSetting env bind
  | .UpdateProxy bind => BaseApi.UpdateProxy env bind
  | .UpdateMenu bind => BaseApi.UpdateMenu env bind
  | .UpdatePassword bind => BaseApi.UpdatePassword env bind
  | .UpdateSSL bind => BaseApi.UpdateSSL env bind
  | .LoadFromCert => BaseApi.LoadFromCert env
  | .DownloadSSL => BaseApi.DownloadSSL env
  | .LoadInterfaceAddr => BaseApi.LoadInterfaceAddr env
  | .UpdateBindInfo bind => BaseApi.UpdateBindInfo env bind
  | .UpdatePort bind => BaseApi.UpdatePort env bind
  | .HandlePasswordExpired bind => BaseApi.HandlePasswordExpired env bind
  | .LoadMFA bind => BaseApi.LoadMFA env bind
  | .MFABind bind => BaseApi.MFABind env bind

/-- An error response, as opposed to a success or a served file. -/
def Response.isError : Response → Bool
  | .ErrorWithDetail _ _ _ => true
  | .BadRequest _ => true
  | .SuccessWithData _ => false
  | .File _ => false

/-! ## The settings store behind `settingService.Update` -/

/-- The settings store: the current value of every key that has one, and the
number of writes attempted so far. -/
structure SettingsStore where
  settings : String → Option String
  attempts : Nat

/-- The upsert of one key. -/
def SettingsStore.upsert (s : String → Option String) (key value : String) :
    String → Option String :=
  fun k => if k = key then some value else s k

/-- Modelled from the spec: the body of `settingService.Update`, which is not
in `setting.go`.  It is the store's `set(key, value) -> ok | StoreError`: a
single-key write that either fully succeeds (the key is upserted) or fully
fails (no key changes).  Whether the n-th write attempted fails, and with
which error, is given by `outcome n`. -/
def SettingsStore.set (outcome : Nat → Option Err) (key value : String) (s : SettingsStore) :
    Except Err Data × SettingsStore :=
  match outcome s.attempts with
  | some err => (.error err, { s with attempts := s.attempts + 1 })
  | none => (.ok "", { settings := SettingsStore.upsert s.settings key value,
                       attempts := s.attempts + 1 })

/-- The collaborators `base`, with `settingService.Update` being the store's
`set` under the write outcomes `outcome`. -/
def storeEnv (base : Env SettingsStore) (outcome : Nat → Option Err) : Env SettingsStore :=
  { base with
    settingService := fun op s =>
      match op with
      | .Update key value => SettingsStore.set outcome key value s
      | op => base.settingService op s }

/-- The writes of a world's trace: the `settingService.Update` calls, in order. -/
def World.writes (c : World σ) : List (String × String) :=
  c.calls.filterMap fun call =>
    match call with
    | .service (.Update key value) => some (key, value)
    | _ => none

/-- The three writes of `MFABind`, in the order of the source. -/
def mfaBindWrites (req : dto.MfaCredential) : List (String × String) :=
  [("MFAInterval", req.Interval), ("MFAStatus", "enable"), ("MFASecret", req.Secret)]

/-- How many writes commit when the writes numbered `n`, `n + 1`, `n + 2` are
attempted in turn until one fails. -/
def committed (outcome : Nat → Option Err) (n : Nat) : Nat :=
  if (outcome n).isSome then 0
  else if (outcome (n + 1)).isSome then 1
  else if (outcome (n + 2)).isSome then 2
  else 3

/-- The first error among the writes numbered `n`, `n + 1`, `n + 2`. -/
def firstError (outcome : Nat → Option Err) (n : Nat) : Option Err :=
  match outcome n with
  | some err => some err
  | none =>
    match outcome (n + 1) with
    | some err => some err
    | none => outcome (n + 2)

/-- The settings after a list of writes has committed, in order. -/
def SettingsStore.commit (s : String → Option String) (ws : List (String × String)) :
    String → Option String :=
  ws.foldl (fun s w => SettingsStore.upsert s w.1 w.2) s

/-- The trace entry of a write. -/
def Call.write (w : String × String) : Call :=
  .service (.Update w.1 w.2)

/-- A decimal numeral of a positive integer. -/
def isPositiveInteger (v : String) : Bool :=
  !v.data.isEmpty && v.data.all Char.isDigit && v.data.any (fun ch => ch != '0')

/-- The stored `MFASecret` is present and non-empty. -/
def hasSecret (s : String → Option String) : Bool :=
  match s "MFASecret" with
  | some secret => secret != ""
  | none => false

/-- The stored `MFAInterval` is present and a positive integer. -/
def hasInterval (s : String → Option String) : Bool :=
  match s "MFAInterval" with
  | some interval => isPositiveInteger interval
  | none => false

/-- The credential-state invariant of the spec: when `MFAStatus` is enabled,
`MFASecret` is non-empty and `MFAInterval` is a positive integer. -/
def credentialInvariant (s : String → Option String) : Bool :=
  if s "MFAStatus" = some "enable" then hasSecret s && hasInterval s else true

/-- The responses a handler writes when run from the world `c`. -/
def Handler.issued (env : Env σ) (h : Handler) (c : World σ) : List Response :=
  (h.run env c).responses.drop c.responses.length

/-! ## Sample collaborators, for evaluating the handlers -/

/-- A settings store as first initialised: MFA disabled, no secret. -/
def initialStore : SettingsStore :=
  { settings := fun k =>
      if k = "MFAStatus" then some "disable"
      else if k = "MFASecret" then some ""
      else if k = "MFAInterval" then some "30"
      else none,
    attempts := 0 }

/-- Sample collaborators over the settings store: the code `123456` is the
valid one, every file exists, the setting service accepts everything, and the
base64 decoder knows the encoding of `pass` and rejects what is not base64. -/
def sampleEnv : Env SettingsStore :=
  { CodeErrInternalServer := 500
    ErrTypeInternalServer := "ErrInternalServer"
    BaseDir := "/opt"
    settingService := fun _ s => (.ok "", s)
    GetOtp := fun _ _ _ s => (.ok "otp", s)
    ValidCode := fun code _ _ _ => code = "123456"
    Stat := fun _ _ => none
    DecodeString := fun s =>
      if s = "cGFzcw==" then .ok "pass" else .error "illegal base64 data at input byte 0" }

/-- Sample collaborators where the certificate file is missing. -/
def noCertEnv : Env SettingsStore :=
  { sampleEnv with Stat := fun _ _ => some "no such file or directory" }

/-- A world in which nothing has happened yet. -/
def World.start (s : SettingsStore) : World SettingsStore :=
  { state := s, calls := [], responses := [] }

/-- A bind request with the valid code of `sampleEnv`. -/
def goodBind : dto.MfaCredential :=
  { Secret := "JBSWY3DPEHPK3PXP", Code := "123456", Interval := "30" }

/-- A bind request with a code that `sampleEnv` rejects. -/
def badBind : dto.MfaCredential :=
  { Secret := "JBSWY3DPEHPK3PXP", Code := "000000", Interval := "30" }

/-- Write outcomes where only the write numbered `k` fails, with a store error. -/
def failAt (k : Nat) : Nat → Option Err :=
  fun n => if n = k then some "database is locked" else none

/-- Write outcomes where every write succeeds. -/
def allOk : Nat → Option Err :=
  fun _ => none

/-- A settings store where MFA is already bound, with secret and interval. -/
def boundStore : SettingsStore :=
  { settings := fun k =>
      if k = "MFAStatus" then some "enable"
      else if k = "MFASecret" then some "GEZDGNBVGY3TQOJQ"
      else if k = "MFAInterval" then some "60"
      else none,
    attempts := 0 }

/-- A proxy request whose password is not base64. -/
def undecodableProxy : dto.ProxyUpdate :=
  { ProxyUrl := "proxy.local", ProxyType := "http", ProxyPort := "7890", ProxyPasswd := "!!!" }

/-- A proxy request whose password is the base64 encoding of `pass`. -/
def encodedProxy : dto.ProxyUpdate :=
  { ProxyUrl := "proxy.local", ProxyType := "http", ProxyPort := "7890",
    ProxyPasswd := "cGFzcw==" }

/-! ## Lemmas on `MFABind` -/

/-- A rejected code: `MFABind` asks `mfa.ValidCode`, writes the error response
and does nothing else. -/
theorem MFABind_invalid (env : Env σ) (req : dto.MfaCredential) (c : World σ)
    (h : env.ValidCode req.Code req.Interval req.Secret c.state = false) :
    BaseApi.MFABind env (.ok req) c =
      { state := c.state
        calls := c.calls ++ [.ValidCode req.Code req.Interval req.Secret]
        responses := c.responses ++
          [.ErrorWithDetail env.CodeErrInternalServer env.ErrTypeInternalServer
            "code is not valid"] } := by
  simp [BaseApi.MFABind, mfa.ValidCode, h, helper.ErrorWithDetail, World.respond, World.called]

/-- An accepted code over the settings store: the world `MFABind` leaves, in
terms of the number of writes that commit and of the first write error. -/
theorem MFABind_store (base : Env SettingsStore) (outcome : Nat → Option Err)
    (req : dto.MfaCredential) (c : World SettingsStore)
    (h : base.ValidCode req.Code req.Interval req.Secret c.state = true) :
    BaseApi.MFABind (storeEnv base outcome) (.ok req) c =
      { state :=
          { settings := SettingsStore.commit c.state.settings
              ((mfaBindWrites req).take (committed outcome c.state.attempts))
            attempts := c.state.attempts + min (committed outcome c.state.attempts + 1) 3 }
        calls := c.calls ++ .ValidCode req.Code req.Interval req.Secret ::
          ((mfaBindWrites req).take (committed outcome c.state.attempts + 1)).map Call.write
        responses := c.responses ++
          [match firstError outcome c.state.attempts with
           | some err =>
             .ErrorWithDetail base.CodeErrInternalServer base.ErrTypeInternalServer err
           | none => .SuccessWithData none] } := by
  rcases h0 : outcome c.state.attempts with _ | e0
  · rcases h1 : outcome (c.state.attempts + 1) with _ | e1
    · rcases h2 : outcome (c.state.attempts + 2) with _ | e2 <;>
      simp [BaseApi.MFABind, mfa.ValidCode, h, helper.ErrorWithDetail, helper.SuccessWithData,
        World.respond, World.called, settingService.Update, settingService.call, storeEnv,
        SettingsStore.set, h0, h1, h2, committed, firstError, mfaBindWrites,
        SettingsStore.commit, Call.write]
    · simp [BaseApi.MFABind, mfa.ValidCode, h, helper.ErrorWithDetail, helper.SuccessWithData,
        World.respond, World.called, settingService.Update, settingService.call, storeEnv,
        SettingsStore.set, h0, h1, committed, firstError, mfaBindWrites,
        SettingsStore.commit, Call.write]
  · simp [BaseApi.MFABind, mfa.ValidCode, h, helper.ErrorWithDetail, helper.SuccessWithData,
      World.respond, World.called, settingService.Update, settingService.call, storeEnv,
      SettingsStore.set, h0, committed, firstError, mfaBindWrites,
      SettingsStore.commit, Call.write]

/-- The writes of a trace extended by a code check and some writes. -/
theorem writes_append (calls : List Call) (code interval secret : String)
    (ws : List (String × String)) :
    (calls ++ Call.ValidCode code interval secret :: ws.map Call.write).filterMap
        (fun call =>
          match call with
          | .service (.Update key value) => some (key, value)
          | _ => none) =
      calls.filterMap
        (fun call =>
          match call with
          | .service (.Update key value) => some (key, value)
          | _ => none) ++ ws := by
  rw [List.filterMap_append, List.filterMap_cons]
  congr 1
  induction ws with
  | nil => rfl
  | cons w ws ih =>
    simp only [List.map_cons, List.filterMap_cons, Call.write]
    simpa using ih

/-- The writes `MFABind` issues over the settings store for an accepted code. -/
theorem MFABind_store_writes (base : Env SettingsStore) (outcome : Nat → Option Err)
    (req : dto.MfaCredential) (c : World SettingsStore)
    (h : base.ValidCode req.Code req.Interval req.Secret c.state = true) :
    (BaseApi.MFABind (storeEnv base outcome) (.ok req) c).writes =
      c.writes ++ (mfaBindWrites req).take (committed outcome c.state.attempts + 1) := by
  rw [MFABind_store base outcome req c h]
  exact writes_append _ _ _ _ _

/-- The number of committed writes, from the outcomes of the three writes. -/
theorem committed_eq_three (outcome : Nat → Option Err) (n : Nat)
    (h0 : outcome n = none) (h1 : outcome (n + 1) = none) (h2 : outcome (n + 2) = none) :
    committed outcome n = 3 ∧ firstError outcome n = none := by
  simp [committed, firstError, h0, h1, h2]

/-- The number of committed writes when the write numbered `n + j` is the first
to fail. -/
theorem committed_eq_of_first_failure (outcome : Nat → Option Err) (n j : Nat) (err : Err)
    (hj : j < 3) (hprev : ∀ i, i < j → outcome (n + i) = none)
    (hfail : outcome (n + j) = some err) :
    committed outcome n = j ∧ firstError outcome n = some err := by
  have h3 : j = 0 ∨ j = 1 ∨ j = 2 := by omega
  rcases h3 with rfl | rfl | rfl
  · simp only [Nat.add_zero] at hfail
    simp [committed, firstError, hfail]
  · have h0 := hprev 0 (by omega)
    simp only [Nat.add_zero] at h0
    simp [committed, firstError, hfail, h0]
  · have h0 := hprev 0 (by omega)
    have h1 := hprev 1 (by omega)
    simp only [Nat.add_zero] at h0
    simp [committed, firstError, hfail, h0, h1]

/-! ## The claims on `MFABind` -/

/-- C1: `MFABind` rejects an invalid code without touching the store.  When
`mfa.ValidCode(code, interval, secret)` is false, the one response written is
the error `code is not valid`, the only call made is the code check (so no
`settingService.Update`), and the state behind the handler (every key of the
settings store included) is the prior one. -/
theorem MFABind_rejects_invalid_code (env : Env σ) (req : dto.MfaCredential) (c : World σ)
    (h : env.ValidCode req.Code req.Interval req.Secret c.state = false) :
    (BaseApi.MFABind env (.ok req) c).responses = c.responses ++
        [.ErrorWithDetail env.CodeErrInternalServer env.ErrTypeInternalServer
          "code is not valid"] ∧
      (BaseApi.MFABind env (.ok req) c).calls =
        c.calls ++ [.ValidCode req.Code req.Interval req.Secret] ∧
      (BaseApi.MFABind env (.ok req) c).writes = c.writes ∧
      (BaseApi.MFABind env (.ok req) c).state = c.state := by
  rw [MFABind_invalid env req c h]
  simp [World.writes]

/-- Witness of C1: the rejected code `000000` on the initial store. -/
theorem MFABind_rejects_invalid_code_witness :
    (storeEnv sampleEnv allOk).ValidCode badBind.Code badBind.Interval badBind.Secret
        (World.start initialStore).state = false ∧
      (BaseApi.MFABind (storeEnv sampleEnv allOk) (.ok badBind)
          (World.start initialStore)).responses = (World.start initialStore).responses ++
        [.ErrorWithDetail (storeEnv sampleEnv allOk).CodeErrInternalServer
          (storeEnv sampleEnv allOk).ErrTypeInternalServer "code is not valid"] ∧
      (BaseApi.MFABind (storeEnv sampleEnv allOk) (.ok badBind)
          (World.start initialStore)).calls = (World.start initialStore).calls ++
        [.ValidCode badBind.Code badBind.Interval badBind.Secret] ∧
      (BaseApi.MFABind (storeEnv sampleEnv allOk) (.ok badBind)
          (World.start initialStore)).writes = (World.start initialStore).writes ∧
      (BaseApi.MFABind (storeEnv sampleEnv allOk) (.ok badBind)
          (World.start initialStore)).state = (World.start initialStore).state :=
  ⟨by decide,
    MFABind_rejects_invalid_code (storeEnv sampleEnv allOk) badBind (World.start initialStore)
      (by decide)⟩

/-- C2: success postcondition of `MFABind`.  When the code is accepted and the
three store writes succeed, the one response written is the success, the code
that was checked is the request's against the request's interval and secret,
and the store afterwards holds `MFAStatus = enable`, `MFASecret` = the
request's secret and `MFAInterval` = the request's interval; the writes are
those three and every other key keeps its value. -/
theorem MFABind_success_postcondition (base : Env SettingsStore) (outcome : Nat → Option Err)
    (req : dto.MfaCredential) (c : World SettingsStore)
    (hvalid : (storeEnv base outcome).ValidCode req.Code req.Interval req.Secret c.state = true)
    (h0 : outcome c.state.attempts = none) (h1 : outcome (c.state.attempts + 1) = none)
    (h2 : outcome (c.state.attempts + 2) = none) :
    (BaseApi.MFABind (storeEnv base outcome) (.ok req) c).responses =
        c.responses ++ [.SuccessWithData none] ∧
      (BaseApi.MFABind (storeEnv base outcome) (.ok req) c).calls =
        c.calls ++ [.ValidCode req.Code req.Interval req.Secret,
          .service (.Update "MFAInterval" req.Interval),
          .service (.Update "MFAStatus" "enable"),
          .service (.Update "MFASecret" req.Secret)] ∧
      (BaseApi.MFABind (storeEnv base outcome) (.ok req) c).state.settings "MFAStatus" =
        some "enable" ∧
      (BaseApi.MFABind (storeEnv base outcome) (.ok req) c).state.settings "MFASecret" =
        some req.Secret ∧
      (BaseApi.MFABind (storeEnv base outcome) (.ok req) c).state.settings "MFAInterval" =
        some req.Interval ∧
      ∀ key, key ≠ "MFAStatus" → key ≠ "MFASecret" → key ≠ "MFAInterval" →
        (BaseApi.MFABind (storeEnv base outcome) (.ok req) c).state.settings key =
          c.state.settings key := by
  have hv : base.ValidCode req.Code req.Interval req.Secret c.state = true := hvalid
  obtain ⟨hc, hf⟩ := committed_eq_three outcome c.state.attempts h0 h1 h2
  rw [MFABind_store base outcome req c hv, hc, hf]
  refine ⟨rfl, ?_, ?_, ?_, ?_, ?_⟩
  · simp [mfaBindWrites, Call.write]
  · simp [mfaBindWrites, SettingsStore.commit, SettingsStore.upsert]
  · simp [mfaBindWrites, SettingsStore.commit, SettingsStore.upsert]
  · simp [mfaBindWrites, SettingsStore.commit, SettingsStore.upsert]
  · intro key hs hsec hint
    simp [mfaBindWrites, SettingsStore.commit, SettingsStore.upsert, hs, hsec, hint]

/-- Witness of C2: the accepted code `123456` on the initial store, every
write succeeding. -/
theorem MFABind_success_postcondition_witness :
    ((storeEnv sampleEnv allOk).ValidCode goodBind.Code goodBind.Interval goodBind.Secret
        (World.start initialStore).state = true ∧
      allOk (World.start initialStore).state.attempts = none ∧
      allOk ((World.start initialStore).state.attempts + 1) = none ∧
      allOk ((World.start initialStore).state.attempts + 2) = none) ∧
      (BaseApi.MFABind (storeEnv sampleEnv allOk) (.ok goodBind)
        (World.start initialStore)).responses =
        (World.start initialStore).responses ++ [.SuccessWithData none] ∧
      (BaseApi.MFABind (storeEnv sampleEnv allOk) (.ok goodBind)
          (World.start initialStore)).calls =
        (World.start initialStore).calls ++
          [.ValidCode goodBind.Code goodBind.Interval goodBind.Secret,
            .service (.Update "MFAInterval" goodBind.Interval),
            .service (.Update "MFAStatus" "enable"),
            .service (.Update "MFASecret" goodBind.Secret)] ∧
      (BaseApi.MFABind (storeEnv sampleEnv allOk) (.ok goodBind)
          (World.start initialStore)).state.settings "MFAStatus" = some "enable" ∧
      (BaseApi.MFABind (storeEnv sampleEnv allOk) (.ok goodBind)
          (World.start initialStore)).state.settings "MFASecret" = some goodBind.Secret ∧
      (BaseApi.MFABind (storeEnv sampleEnv allOk) (.ok goodBind)
          (World.start initialStore)).state.settings "MFAInterval" = some goodBind.Interval ∧
      ∀ key, key ≠ "MFAStatus" → key ≠ "MFASecret" → key ≠ "MFAInterval" →
        (BaseApi.MFABind (storeEnv sampleEnv allOk) (.ok goodBind)
            (World.start initialStore)).state.settings key =
          (World.start initialStore).state.settings key :=
  ⟨by decide,
    MFABind_success_postcondition sampleEnv allOk goodBind (World.start initialStore)
      (by decide) (by decide) (by decide) (by decide)⟩

/-- C3, as stated, fails: on the initial store, with the accepted code and
every write succeeding, the writes are `MFAInterval`, `MFAStatus`, `MFASecret`
in that order, not `MFASecret`, `MFAInterval`, `MFAStatus`; the status flag is
the second write, not the last. -/
theorem MFABind_write_order_counterexample :
    (storeEnv sampleEnv allOk).ValidCode goodBind.Code goodBind.Interval goodBind.Secret
        (World.start initialStore).state = true ∧
      (BaseApi.MFABind (storeEnv sampleEnv allOk) (.ok goodBind)
          (World.start initialStore)).writes =
        [("MFAInterval", "30"), ("MFAStatus", "enable"), ("MFASecret", "JBSWY3DPEHPK3PXP")] ∧
      (BaseApi.MFABind (storeEnv sampleEnv allOk) (.ok goodBind)
          (World.start initialStore)).writes ≠
        [("MFASecret", "JBSWY3DPEHPK3PXP"), ("MFAInterval", "30"), ("MFAStatus", "enable")] := by
  decide

/-- C3, amended: for every request with an accepted code, the store writes of
`MFABind` are sequential single-key writes in the order `MFAInterval`, then
`MFAStatus = enable`, then `MFASecret`, ending with the first write that
fails; when the first two succeed they are exactly these three. -/
theorem MFABind_write_order (base : Env SettingsStore) (outcome : Nat → Option Err)
    (req : dto.MfaCredential) (c : World SettingsStore)
    (hvalid : (storeEnv base outcome).ValidCode req.Code req.Interval req.Secret c.state = true) :
    (BaseApi.MFABind (storeEnv base outcome) (.ok req) c).writes =
        c.writes ++ ([("MFAInterval", req.Interval), ("MFAStatus", "enable"),
          ("MFASecret", req.Secret)].take (committed outcome c.state.attempts + 1)) ∧
      (outcome c.state.attempts = none → outcome (c.state.attempts + 1) = none →
        (BaseApi.MFABind (storeEnv base outcome) (.ok req) c).writes =
          c.writes ++ [("MFAInterval", req.Interval), ("MFAStatus", "enable"),
            ("MFASecret", req.Secret)]) := by
  have hw := MFABind_store_writes base outcome req c hvalid
  refine ⟨hw, ?_⟩
  intro h0 h1
  rw [hw]
  rcases h2 : outcome (c.state.attempts + 2) with _ | e2 <;>
    simp [committed, h0, h1, h2, mfaBindWrites]

/-- Witness of C3, amended: the accepted code on the initial store, the second
write failing. -/
theorem MFABind_write_order_witness :
    (storeEnv sampleEnv (failAt 1)).ValidCode goodBind.Code goodBind.Interval goodBind.Secret
        (World.start initialStore).state = true ∧
      ((BaseApi.MFABind (storeEnv sampleEnv (failAt 1)) (.ok goodBind)
          (World.start initialStore)).writes =
        (World.start initialStore).writes ++
          ([("MFAInterval", goodBind.Interval), ("MFAStatus", "enable"),
            ("MFASecret", goodBind.Secret)].take
              (committed (failAt 1) (World.start initialStore).state.attempts + 1)) ∧
      (failAt 1 (World.start initialStore).state.attempts = none →
        failAt 1 ((World.start initialStore).state.attempts + 1) = none →
        (BaseApi.MFABind (storeEnv sampleEnv (failAt 1)) (.ok goodBind)
            (World.start initialStore)).writes =
          (World.start initialStore).writes ++ [("MFAInterval", goodBind.Interval),
            ("MFAStatus", "enable"), ("MFASecret", goodBind.Secret)])) :=
  ⟨by decide,
    MFABind_write_order sampleEnv (failAt 1) goodBind (World.start initialStore) (by decide)⟩

/-- C4: `MFABind` surfaces the first failing store write and stops.  For an
accepted code, when the write numbered `j + 1` of the three (`j < 3`) is the
first to return an error, the one response written is the error response
carrying that error, the writes issued are the first `j + 1` of the three and
nothing after (no later write, no compensating write), and the store holds the
`j` earlier writes; and the response is the success exactly when the three
writes returned no error. -/
theorem MFABind_surfaces_first_failure (base : Env SettingsStore)
    (outcome : Nat → Option Err) (req : dto.MfaCredential) (c : World SettingsStore)
    (hvalid : (storeEnv base outcome).ValidCode req.Code req.Interval req.Secret c.state = true) :
    (∀ j err, j < 3 → (∀ i, i < j → outcome (c.state.attempts + i) = none) →
        outcome (c.state.attempts + j) = some err →
        (BaseApi.MFABind (storeEnv base outcome) (.ok req) c).responses =
            c.responses ++ [.ErrorWithDetail (storeEnv base outcome).CodeErrInternalServer
              (storeEnv base outcome).ErrTypeInternalServer err] ∧
          (BaseApi.MFABind (storeEnv base outcome) (.ok req) c).writes =
            c.writes ++ (mfaBindWrites req).take (j + 1) ∧
          (BaseApi.MFABind (storeEnv base outcome) (.ok req) c).state.settings =
            SettingsStore.commit c.state.settings ((mfaBindWrites req).take j)) ∧
      ((BaseApi.MFABind (storeEnv base outcome) (.ok req) c).responses =
          c.responses ++ [.SuccessWithData none] ↔
        (outcome c.state.attempts = none ∧ outcome (c.state.attempts + 1) = none ∧
          outcome (c.state.attempts + 2) = none)) := by
  have hv : base.ValidCode req.Code req.Interval req.Secret c.state = true := hvalid
  have hw := MFABind_store_writes base outcome req c hvalid
  have hrun := MFABind_store base outcome req c hv
  constructor
  · intro j err hj hprev hfail
    obtain ⟨hc, hf⟩ := committed_eq_of_first_failure outcome c.state.attempts j err hj hprev hfail
    refine ⟨?_, ?_, ?_⟩
    · rw [hrun, hf]
      rfl
    · rw [hw, hc]
    · rw [hrun, hc]
  · rw [hrun]
    simp only [List.append_cancel_left_eq, List.cons.injEq, and_true]
    rcases h0 : outcome c.state.attempts with _ | e0
    · rcases h1 : outcome (c.state.attempts + 1) with _ | e1
      · rcases h2 : outcome (c.state.attempts + 2) with _ | e2 <;>
          simp [firstError, h0, h1, h2]
      · simp [firstError, h0, h1]
    · simp [firstError, h0]

/-- Witness of C4: the accepted code on the initial store, the second write
being the first to fail. -/
theorem MFABind_surfaces_first_failure_witness :
    ((storeEnv sampleEnv (failAt 1)).ValidCode goodBind.Code goodBind.Interval goodBind.Secret
        (World.start initialStore).state = true ∧
      (∀ i, i < 1 → failAt 1 ((World.start initialStore).state.attempts + i) = none) ∧
      failAt 1 ((World.start initialStore).state.attempts + 1) = some "database is locked") ∧
      ((BaseApi.MFABind (storeEnv sampleEnv (failAt 1)) (.ok goodBind)
          (World.start initialStore)).responses =
        (World.start initialStore).responses ++
          [.ErrorWithDetail (storeEnv sampleEnv (failAt 1)).CodeErrInternalServer
            (storeEnv sampleEnv (failAt 1)).ErrTypeInternalServer "database is locked"] ∧
      (BaseApi.MFABind (storeEnv sampleEnv (failAt 1)) (.ok goodBind)
          (World.start initialStore)).writes =
        (World.start initialStore).writes ++ (mfaBindWrites goodBind).take (1 + 1) ∧
      (BaseApi.MFABind (storeEnv sampleEnv (failAt 1)) (.ok goodBind)
          (World.start initialStore)).state.settings =
        SettingsStore.commit (World.start initialStore).state.settings
          ((mfaBindWrites goodBind).take 1)) :=
  ⟨by decide,
    (MFABind_surfaces_first_failure sampleEnv (failAt 1) goodBind (World.start initialStore)
      (by decide)).1 1 "database is locked" (by decide) (by decide) (by decide)⟩

/-- C5, as stated, fails: the initial store (MFA disabled, empty secret)
satisfies the invariant; after `MFABind` with the accepted code, where the
first two writes succeed and the third (`MFASecret`) fails, the store has
`MFAStatus = enable` with the empty secret, and the invariant is broken. -/
theorem MFABind_invariant_counterexample :
    credentialInvariant (World.start initialStore).state.settings = true ∧
      (BaseApi.MFABind (storeEnv sampleEnv (failAt 2)) (.ok goodBind)
          (World.start initialStore)).state.settings "MFAStatus" = some "enable" ∧
      (BaseApi.MFABind (storeEnv sampleEnv (failAt 2)) (.ok goodBind)
          (World.start initialStore)).state.settings "MFASecret" = some "" ∧
      credentialInvariant (BaseApi.MFABind (storeEnv sampleEnv (failAt 2)) (.ok goodBind)
          (World.start initialStore)).state.settings = false := by
  decide

/-- C5, amended: for every prior store satisfying the credential-state
invariant and every request whose code, when accepted, comes with a non-empty
secret and a positive-integer interval, the store after `MFABind` satisfies
the invariant again for every outcome of the store writes, unless the code is
accepted, the first two writes succeed and the third (`MFASecret`) fails while
the prior `MFASecret` is empty or absent. -/
theorem MFABind_preserves_invariant (base : Env SettingsStore) (outcome : Nat → Option Err)
    (req : dto.MfaCredential) (c : World SettingsStore)
    (hinv : credentialInvariant c.state.settings = true)
    (hreq : base.ValidCode req.Code req.Interval req.Secret c.state = true →
      req.Secret ≠ "" ∧ isPositiveInteger req.Interval = true)
    (hthird : base.ValidCode req.Code req.Interval req.Secret c.state = true →
      committed outcome c.state.attempts = 2 → hasSecret c.state.settings = true) :
    credentialInvariant
      (BaseApi.MFABind (storeEnv base outcome) (.ok req) c).state.settings = true := by
  rcases hv : base.ValidCode req.Code req.Interval req.Secret c.state with _ | _
  · rw [MFABind_invalid (storeEnv base outcome) req c hv]
    exact hinv
  · obtain ⟨hsec, hint⟩ := hreq hv
    have h2 := hthird hv
    rw [MFABind_store base outcome req c hv]
    rcases h0 : outcome c.state.attempts with _ | e0
    · rcases h1 : outcome (c.state.attempts + 1) with _ | e1
      · rcases h2' : outcome (c.state.attempts + 2) with _ | e2
        · simp [committed, h0, h1, h2', mfaBindWrites, SettingsStore.commit,
            SettingsStore.upsert, credentialInvariant, hasSecret, hasInterval, hsec, hint]
        · have hs : hasSecret c.state.settings = true := by
            apply h2
            simp [committed, h0, h1, h2']
          simp only [hasSecret] at hs
          simp [committed, h0, h1, h2', mfaBindWrites, SettingsStore.commit,
            SettingsStore.upsert, credentialInvariant, hasSecret, hasInterval, hint, hs]
      · simp only [credentialInvariant, hasSecret, hasInterval] at hinv
        simp [committed, h0, h1, mfaBindWrites, SettingsStore.commit,
          SettingsStore.upsert, credentialInvariant, hasSecret, hasInterval, hint]
        by_cases hst : c.state.settings "MFAStatus" = some "enable"
        · right
          simp only [hst, if_true, Bool.and_eq_true] at hinv
          exact hinv.1
        · left
          exact hst
    · simpa [committed, h0, mfaBindWrites, SettingsStore.commit] using hinv

/-- Witness of C5, amended: a store where MFA is already bound, the accepted
code, and the third write failing after the first two succeeded. -/
theorem MFABind_preserves_invariant_witness :
    (credentialInvariant (World.start boundStore).state.settings = true ∧
      (sampleEnv.ValidCode goodBind.Code goodBind.Interval goodBind.Secret
          (World.start boundStore).state = true →
        goodBind.Secret ≠ "" ∧ isPositiveInteger goodBind.Interval = true) ∧
      (sampleEnv.ValidCode goodBind.Code goodBind.Interval goodBind.Secret
          (World.start boundStore).state = true →
        committed (failAt 2) (World.start boundStore).state.attempts = 2 →
        hasSecret (World.start boundStore).state.settings = true)) ∧
      credentialInvariant
        (BaseApi.MFABind (storeEnv sampleEnv (failAt 2)) (.ok goodBind)
          (World.start boundStore)).state.settings = true :=
  ⟨by decide,
    MFABind_preserves_invariant sampleEnv (failAt 2) goodBind (World.start boundStore)
      (by decide) (by decide) (by decide)⟩

/-- C8, as stated, fails: with the accepted code on the initial store, the run
whose second write fails (one write committed, MFA still disabled) and the run
whose third write fails with the same store error (two writes committed, MFA
enabled) write the same response. -/
theorem MFABind_partial_report_counterexample :
    committed (failAt 1) (World.start initialStore).state.attempts = 1 ∧
      committed (failAt 2) (World.start initialStore).state.attempts = 2 ∧
      (BaseApi.MFABind (storeEnv sampleEnv (failAt 1)) (.ok goodBind)
          (World.start initialStore)).state.settings "MFAStatus" = some "disable" ∧
      (BaseApi.MFABind (storeEnv sampleEnv (failAt 2)) (.ok goodBind)
          (World.start initialStore)).state.settings "MFAStatus" = some "enable" ∧
      (BaseApi.MFABind (storeEnv sampleEnv (failAt 1)) (.ok goodBind)
          (World.start initialStore)).responses =
        [.ErrorWithDetail 500 "ErrInternalServer" "database is locked"] ∧
      (BaseApi.MFABind (storeEnv sampleEnv (failAt 2)) (.ok goodBind)
          (World.start initialStore)).responses =
        [.ErrorWithDetail 500 "ErrInternalServer" "database is locked"] := by
  decide

/-- C8, amended: a partial MFA bind is reported with the store error alone.
For an accepted code, the response of `MFABind` is determined by the first
error among the three writes, not by the number of writes committed: two runs
from the same world whose first write errors are the same write the same
responses, and a run with a first write error `err` writes the error response
carrying `err` and nothing else. -/
theorem MFABind_partial_report (base : Env SettingsStore)
    (outcome outcome' : Nat → Option Err) (req : dto.MfaCredential) (c : World SettingsStore)
    (hvalid : base.ValidCode req.Code req.Interval req.Secret c.state = true)
    (hsame : firstError outcome c.state.attempts = firstError outcome' c.state.attempts) :
    (BaseApi.MFABind (storeEnv base outcome) (.ok req) c).responses =
        (BaseApi.MFABind (storeEnv base outcome') (.ok req) c).responses ∧
      ∀ err, firstError outcome c.state.attempts = some err →
        (BaseApi.MFABind (storeEnv base outcome) (.ok req) c).responses = c.responses ++
          [.ErrorWithDetail base.CodeErrInternalServer base.ErrTypeInternalServer err] := by
  rw [MFABind_store base outcome req c hvalid, MFABind_store base outcome' req c hvalid]
  refine ⟨by simp only [hsame], ?_⟩
  intro err herr
  simp only [herr]

/-- Witness of C8, amended: the runs whose second and whose third write fail
with the same error. -/
theorem MFABind_partial_report_witness :
    (sampleEnv.ValidCode goodBind.Code goodBind.Interval goodBind.Secret
        (World.start initialStore).state = true ∧
      firstError (failAt 1) (World.start initialStore).state.attempts =
        firstError (failAt 2) (World.start initialStore).state.attempts) ∧
      ((BaseApi.MFABind (storeEnv sampleEnv (failAt 1)) (.ok goodBind)
          (World.start initialStore)).responses =
        (BaseApi.MFABind (storeEnv sampleEnv (failAt 2)) (.ok goodBind)
          (World.start initialStore)).responses ∧
      ∀ err, firstError (failAt 1) (World.start initialStore).state.attempts = some err →
        (BaseApi.MFABind (storeEnv sampleEnv (failAt 1)) (.ok goodBind)
            (World.start initialStore)).responses = (World.start initialStore).responses ++
          [.ErrorWithDetail sampleEnv.CodeErrInternalServer
            sampleEnv.ErrTypeInternalServer err]) :=
  ⟨by decide,
    MFABind_partial_report sampleEnv (failAt 1) (failAt 2) goodBind (World.start initialStore)
      (by decide) (by decide)⟩

/-! ## Lemmas on the responses of the handlers -/

/-- A string has length zero exactly when it is the empty string. -/
theorem length_ne_zero_iff (s : String) : s.length ≠ 0 ↔ s ≠ "" := by
  rw [Ne, Ne, String.length, List.length_eq_zero]
  constructor
  · intro h hs
    exact h (by rw [hs])
  · intro h hs
    exact h (String.ext hs)

/-- A handler that calls the setting service and answers with its error or
with a success adds one response; an error response is the internal error. -/
theorem respond_service (env : Env σ) (op : ServiceCall) (c : World σ)
    (f : Data → Option Data) :
    ∃ r, (match settingService.call env op c with
          | (.error err, c) =>
            helper.ErrorWithDetail c env.CodeErrInternalServer env.ErrTypeInternalServer err
          | (.ok data, c) => helper.SuccessWithData c (f data)).responses = c.responses ++ r ∧
      ∀ x ∈ r, x.isError = true →
        ∃ err, x = .ErrorWithDetail env.CodeErrInternalServer env.ErrTypeInternalServer err := by
  simp only [settingService.call]
  rcases env.settingService op c.state with ⟨_ | _, s⟩ <;>
    simp [helper.ErrorWithDetail, helper.SuccessWithData, World.respond, World.called,
      Response.isError]

/-- The same for a handler that calls `settingService.Update`. -/
theorem respond_update (env : Env σ) (key value : String) (c : World σ) :
    ∃ r, (match settingService.Update env key value c with
          | (some err, c) =>
            helper.ErrorWithDetail c env.CodeErrInternalServer env.ErrTypeInternalServer err
          | (none, c) => helper.SuccessWithData c none).responses = c.responses ++ r ∧
      ∀ x ∈ r, x.isError = true →
        ∃ err, x = .ErrorWithDetail env.CodeErrInternalServer env.ErrTypeInternalServer err := by
  simp only [settingService.Update, settingService.call]
  rcases env.settingService (.Update key value) c.state with ⟨_ | _, s⟩ <;>
    simp [helper.ErrorWithDetail, helper.SuccessWithData, World.respond, World.called,
      Response.isError]

/-- A call of `settingService.Update` returns an error or none, and writes no
response. -/
theorem update_cases (env : Env σ) (key value : String) (c : World σ) :
    (∃ err c', settingService.Update env key value c = (some err, c') ∧
        c'.responses = c.responses) ∨
      ∃ c', settingService.Update env key value c = (none, c') ∧
        c'.responses = c.responses := by
  simp only [settingService.Update, settingService.call]
  rcases env.settingService (.Update key value) c.state with ⟨err | data, s⟩
  · exact Or.inl ⟨err, _, rfl, rfl⟩
  · exact Or.inr ⟨_, rfl, rfl⟩

/-- The responses of `MFABind`: one is added, and an error is the internal
error. -/
theorem respond_MFABind (env : Env σ) (req : dto.MfaCredential) (c : World σ) :
    ∃ r, (BaseApi.MFABind env (.ok req) c).responses = c.responses ++ r ∧
      ∀ x ∈ r, x.isError = true →
        ∃ err, x = .ErrorWithDetail env.CodeErrInternalServer env.ErrTypeInternalServer err := by
  simp only [BaseApi.MFABind, mfa.ValidCode]
  rcases env.ValidCode req.Code req.Interval req.Secret c.state with _ | _
  · simp [helper.ErrorWithDetail, World.respond, World.called, Response.isError]
  · have hr0 : (c.called (.ValidCode req.Code req.Interval req.Secret) c.state).responses =
        c.responses := rfl
    rcases update_cases env "MFAInterval" req.Interval
      (c.called (.ValidCode req.Code req.Interval req.Secret) c.state) with
      ⟨err, c1, h1, hr1⟩ | ⟨c1, h1, hr1⟩
    · simp [h1, hr1, hr0, helper.ErrorWithDetail, World.respond, Response.isError]
    · rcases update_cases env "MFAStatus" "enable" c1 with ⟨err, c2, h2, hr2⟩ | ⟨c2, h2, hr2⟩
      · simp [h1, h2, hr1, hr2, hr0, helper.ErrorWithDetail, World.respond, Response.isError]
      · rcases update_cases env "MFASecret" req.Secret c2 with
          ⟨err, c3, h3, hr3⟩ | ⟨c3, h3, hr3⟩ <;>
          simp [h1, h2, h3, hr1, hr2, hr3, hr0, helper.ErrorWithDetail, helper.SuccessWithData,
            World.respond, Response.isError]

/-- The responses of `UpdateProxy`: one is added; an error is the internal
error, or the bad request of a password that does not decode. -/
theorem respond_UpdateProxy (env : Env σ) (req : dto.ProxyUpdate) (c : World σ) :
    ∃ r, (BaseApi.UpdateProxy env (.ok req) c).responses = c.responses ++ r ∧
      ∀ x ∈ r, x.isError = true →
        (∃ err, x = .ErrorWithDetail env.CodeErrInternalServer env.ErrTypeInternalServer err) ∨
        ∃ err, req.ProxyPasswd ≠ "" ∧ req.ProxyType ≠ "" ∧
          env.DecodeString req.ProxyPasswd = .error err ∧ x = .BadRequest err := by
  simp only [BaseApi.UpdateProxy]
  by_cases hboth : req.ProxyPasswd.length ≠ 0 ∧ req.ProxyType.length ≠ 0
  · rw [if_pos hboth]
    rcases hdec : env.DecodeString req.ProxyPasswd with err | pass
    · refine ⟨[.BadRequest err], by simp [helper.BadRequest, World.respond], ?_⟩
      intro x hx _
      right
      exact ⟨err, (length_ne_zero_iff _).1 hboth.1, (length_ne_zero_iff _).1 hboth.2, rfl,
        by simpa using hx⟩
    · obtain ⟨r, hr, hall⟩ := respond_service env
        (.UpdateProxy { req with ProxyPasswd := pass }) c (fun _ => none)
      exact ⟨r, hr, fun x hx he => Or.inl (hall x hx he)⟩
  · rw [if_neg hboth]
    obtain ⟨r, hr, hall⟩ := respond_service env (.UpdateProxy req) c (fun _ => none)
    exact ⟨r, hr, fun x hx he => Or.inl (hall x hx he)⟩

/-- The responses of every handler: some are added to those of the world; an
error among them is the internal error, or the bad request of `UpdateProxy`. -/
theorem respond_run (env : Env σ) (h : Handler) (c : World σ) :
    ∃ r, (h.run env c).responses = c.responses ++ r ∧
      ∀ x ∈ r, x.isError = true →
        (∃ err, x = .ErrorWithDetail env.CodeErrInternalServer env.ErrTypeInternalServer err) ∨
        ∃ req err, h = .UpdateProxy (.ok req) ∧ req.ProxyPasswd ≠ "" ∧ req.ProxyType ≠ "" ∧
          env.DecodeString req.ProxyPasswd = .error err ∧ x = .BadRequest err := by
  have weaken : ∀ c' : World σ,
      (∃ r, c'.responses = c.responses ++ r ∧ ∀ x ∈ r, x.isError = true →
        ∃ err, x = .ErrorWithDetail env.CodeErrInternalServer env.ErrTypeInternalServer err) →
      ∃ r, c'.responses = c.responses ++ r ∧ ∀ x ∈ r, x.isError = true →
        (∃ err, x = .ErrorWithDetail env.CodeErrInternalServer env.ErrTypeInternalServer err) ∨
        ∃ req err, h = .UpdateProxy (.ok req) ∧ req.ProxyPasswd ≠ "" ∧ req.ProxyType ≠ "" ∧
          env.DecodeString req.ProxyPasswd = .error err ∧ x = .BadRequest err := by
    rintro c' ⟨r, hr, hall⟩
    exact ⟨r, hr, fun x hx he => Or.inl (hall x hx he)⟩
  have unchanged : ∃ r, c.responses = c.responses ++ r ∧ ∀ x ∈ r, x.isError = true →
      ∃ err, x = .ErrorWithDetail env.CodeErrInternalServer env.ErrTypeInternalServer err :=
    ⟨[], by simp⟩
  cases h with
  | GetSettingInfo => exact weaken _ (respond_service env .GetSettingInfo c some)
  | GetTerminalSettingInfo => exact weaken _ (respond_service env .GetTerminalInfo c some)
  | GetSystemAvailable =>
    exact weaken _ ⟨[.SuccessWithData none], rfl, by simp [Response.isError]⟩
  | UpdateSetting bind =>
    rcases bind with e | req
    · exact weaken _ unchanged
    · exact weaken _ (respond_update env req.Key req.Value c)
  | UpdateTerminalSetting bind =>
    rcases bind with e | req
    · exact weaken _ unchanged
    · exact weaken _ (respond_service env (.UpdateTerminal req) c (fun _ => none))
  | UpdateProxy bind =>
    rcases bind with e | req
    · exact weaken _ unchanged
    · obtain ⟨r, hr, hall⟩ := respond_UpdateProxy env req c
      refine ⟨r, hr, fun x hx he => ?_⟩
      rcases hall x hx he with hi | ⟨err, h1, h2, h3, h4⟩
      · exact Or.inl hi
      · exact Or.inr ⟨req, err, rfl, h1, h2, h3, h4⟩
  | UpdateMenu bind =>
    rcases bind with e | req
    · exact weaken _ unchanged
    · exact weaken _ (respond_update env req.Key req.Value c)
  | UpdatePassword bind =>
    rcases bind with e | req
    · exact weaken _ unchanged
    · exact weaken _ (respond_service env (.UpdatePassword req.OldPassword req.NewPassword) c
        (fun _ => none))
  | UpdateSSL bind =>
    rcases bind with e | req
    · exact weaken _ unchanged
    · exact weaken _ (respond_service env (.UpdateSSL req) c (fun _ => none))
  | LoadFromCert => exact weaken _ (respond_service env .LoadFromCert c some)
  | DownloadSSL =>
    apply weaken
    simp only [Handler.run, BaseApi.DownloadSSL, os.Stat]
    rcases env.Stat (path.Join [env.BaseDir, "1panel/secret/server.crt"]) c.state with _ | err <;>
      simp [helper.ErrorWithDetail, World.File, World.respond, World.called, Response.isError]
  | LoadInterfaceAddr => exact weaken _ (respond_service env .LoadInterfaceAddr c some)
  | UpdateBindInfo bind =>
    rcases bind with e | req
    · exact weaken _ unchanged
    · exact weaken _ (respond_service env (.UpdateBindInfo req) c (fun _ => none))
  | UpdatePort bind =>
    rcases bind with e | req
    · exact weaken _ unchanged
    · exact weaken _ (respond_service env (.UpdatePort req.ServerPort) c (fun _ => none))
  | HandlePasswordExpired bind =>
    rcases bind with e | req
    · exact weaken _ unchanged
    · exact weaken _ (respond_service env
        (.HandlePasswordExpired req.OldPassword req.NewPassword) c (fun _ => none))
  | LoadMFA bind =>
    rcases bind with e | req
    · exact weaken _ unchanged
    · apply weaken
      simp only [Handler.run, BaseApi.LoadMFA, mfa.GetOtp]
      rcases env.GetOtp "admin" req.Title req.Interval c.state with ⟨_ | _, s⟩ <;>
        simp [helper.ErrorWithDetail, helper.SuccessWithData, World.respond, World.called,
          Response.isError]
  | MFABind bind =>
    rcases bind with e | req
    · exact weaken _ unchanged
    · exact weaken _ (respond_MFABind env req c)

/-! ## Lemmas on `path.Join` -/

/-- Splitting always yields at least one piece. -/
theorem split_ne_nil (p : List Char) : path.split p ≠ [] := by
  cases p with
  | nil => simp [path.split]
  | cons ch rest =>
    simp only [path.split]
    split
    · simp
    · split <;> simp

/-- A leading slash starts with an empty piece. -/
theorem split_slash (p : List Char) : path.split ('/' :: p) = [] :: path.split p := by
  simp only [path.split]
  split
  · next h => exact absurd h (split_ne_nil p)
  · next piece pieces h => simp [h]

/-- A leading character other than the slash joins the first piece. -/
theorem split_cons (ch : Char) (p : List Char) (hch : ch ≠ '/') :
    path.split (ch :: p) = (ch :: (path.split p).headD []) :: (path.split p).tail := by
  simp only [path.split]
  split
  · next h => exact absurd h (split_ne_nil p)
  · next piece pieces h => simp [h, hch]

/-- A piece without a slash is not split. -/
theorem split_plain (piece : List Char) (h : '/' ∉ piece) : path.split piece = [piece] := by
  induction piece with
  | nil => rfl
  | cons ch rest ih =>
    have hch : ch ≠ '/' := fun e => h (by simp [e])
    have hrest : '/' ∉ rest := fun e => h (List.mem_cons_of_mem _ e)
    rw [split_cons ch rest hch, ih hrest]
    rfl

/-- A piece without a slash, then a slash: the piece is split off. -/
theorem split_append (piece rest : List Char) (h : '/' ∉ piece) :
    path.split (piece ++ '/' :: rest) = piece :: path.split rest := by
  induction piece with
  | nil => exact split_slash rest
  | cons ch more ih =>
    have hch : ch ≠ '/' := fun e => h (by simp [e])
    have hmore : '/' ∉ more := fun e => h (List.mem_cons_of_mem _ e)
    rw [List.cons_append, split_cons ch _ hch, ih hmore]
    rfl

/-- Splitting undoes the joining of pieces without slashes. -/
theorem split_unsplit (pieces : List (List Char)) (hne : pieces ≠ [])
    (h : ∀ piece ∈ pieces, '/' ∉ piece) : path.split (path.unsplit pieces) = pieces := by
  induction pieces with
  | nil => exact absurd rfl hne
  | cons piece rest ih =>
    cases rest with
    | nil => exact split_plain piece (h piece (by simp))
    | cons next more =>
      have hp : '/' ∉ piece := h piece (by simp)
      rw [path.unsplit, split_append piece _ hp,
        ih (by simp) (fun q hq => h q (List.mem_cons_of_mem _ hq))]
      simp

/-- Cleaning keeps plain elements, in order. -/
theorem foldl_cleanStep_plain (rooted : Bool) (pieces done : List (List Char))
    (h : ∀ piece ∈ pieces, path.plain piece) :
    pieces.foldl (path.cleanStep rooted) done = pieces.reverse ++ done := by
  induction pieces generalizing done with
  | nil => rfl
  | cons piece rest ih =>
    obtain ⟨h1, _, h3, h4⟩ := h piece (by simp)
    have hstep : path.cleanStep rooted done piece = piece :: done := by
      simp [path.cleanStep, h1, h3, h4]
    rw [List.foldl_cons, hstep, ih _ (fun q hq => h q (List.mem_cons_of_mem _ hq))]
    simp

/-- Joining two pieces or more. -/
theorem unsplit_cons_cons (piece next : List Char) (more : List (List Char)) :
    path.unsplit (piece :: next :: more) = piece ++ '/' :: path.unsplit (next :: more) := rfl

/-- Joining two non-empty lists of pieces. -/
theorem unsplit_append (ps qs : List (List Char)) (hp : ps ≠ []) (hq : qs ≠ []) :
    path.unsplit (ps ++ qs) = path.unsplit ps ++ '/' :: path.unsplit qs := by
  induction ps with
  | nil => exact absurd rfl hp
  | cons piece rest ih =>
    cases rest with
    | nil =>
      cases qs with
      | nil => exact absurd rfl hq
      | cons q qs => rfl
    | cons next more =>
      have h := ih (by simp)
      rw [List.cons_append, List.cons_append, unsplit_cons_cons, ← List.cons_append, h,
        unsplit_cons_cons, List.append_assoc]
      rfl

/-- A clean rooted path is its own cleaning. -/
theorem Clean_rooted (pieces : List (List Char)) (h : ∀ piece ∈ pieces, path.plain piece) :
    path.Clean (path.rooted pieces) = path.rooted pieces := by
  have hsplit : (path.split ('/' :: path.unsplit pieces)).foldl (path.cleanStep true) [] =
      pieces.reverse := by
    rw [split_slash]
    cases pieces with
    | nil => rfl
    | cons piece rest =>
      rw [split_unsplit _ (by simp) (fun q hq => (h q hq).2.1), List.foldl_cons]
      have h0 : path.cleanStep true [] [] = [] := rfl
      rw [h0, foldl_cleanStep_plain true _ [] h]
      simp
  simp only [path.Clean, path.rooted, List.head?_cons, decide_True, hsplit, List.reverse_reverse, if_true]
  rfl

/-- Joining the certificate path to a clean rooted directory with an element
or more appends it after a slash. -/
theorem Join_rooted (pieces : List (List Char)) (hne : pieces ≠ [])
    (h : ∀ piece ∈ pieces, path.plain piece) :
    path.Join [path.rooted pieces, "1panel/secret/server.crt"] =
      path.rooted pieces ++ "/1panel/secret/server.crt" := by
  have hsfx : ∀ piece ∈ ["1panel".data, "secret".data, "server.crt".data], path.plain piece := by
    decide
  have hjoin : path.rooted pieces ++ "/1panel/secret/server.crt" =
      path.rooted (pieces ++ ["1panel".data, "secret".data, "server.crt".data]) := by
    apply String.ext
    rw [path.rooted, path.rooted, unsplit_append _ _ hne (by simp)]
    rfl
  have hfilter : path.Join [path.rooted pieces, "1panel/secret/server.crt"] =
      path.Clean (path.rooted pieces ++ "/" ++ "1panel/secret/server.crt") := by
    have h1 : path.rooted pieces ≠ "" := by
      intro e
      have := congrArg String.data e
      simp [path.rooted] at this
    simp [path.Join, h1, String.intercalate, String.intercalate.go]
  rw [hfilter, String.append_assoc]
  have : ("/" : String) ++ "1panel/secret/server.crt" = "/1panel/secret/server.crt" := by decide
  rw [this, hjoin]
  apply Clean_rooted
  intro piece hp
  rcases List.mem_append.1 hp with h1 | h1
  · exact h piece h1
  · exact hsfx piece h1

/-! ## The claims on all handlers -/

/-- C6: malformed input causes no side effect.  For each of the eleven
handlers that take a request body, when `helper.CheckBindAndValidate` returns
an error the handler returns the world as it was: no call to the setting
service, to `mfa` or to anything else, no change of the state behind it, and
no response of its own. -/
theorem bind_error_no_side_effect (env : Env σ) (err : Err) (c : World σ) :
    BaseApi.UpdateSetting env (.error err) c = c ∧
      BaseApi.UpdateTerminalSetting env (.error err) c = c ∧
      BaseApi.UpdateProxy env (.error err) c = c ∧
      BaseApi.UpdateMenu env (.error err) c = c ∧
      BaseApi.UpdatePassword env (.error err) c = c ∧
      BaseApi.UpdateSSL env (.error err) c = c ∧
      BaseApi.UpdateBindInfo env (.error err) c = c ∧
      BaseApi.UpdatePort env (.error err) c = c ∧
      BaseApi.HandlePasswordExpired env (.error err) c = c ∧
      BaseApi.LoadMFA env (.error err) c = c ∧
      BaseApi.MFABind env (.error err) c = c :=
  ⟨rfl, rfl, rfl, rfl, rfl, rfl, rfl, rfl, rfl, rfl, rfl⟩

/-- C7, as stated, fails: `UpdateProxy` with a proxy type and a password that
is not base64 writes the bad-request response, an error response that is not
the one with `constant.CodeErrInternalServer` and
`constant.ErrTypeInternalServer`. -/
theorem error_kind_counterexample :
    Handler.issued sampleEnv (.UpdateProxy (.ok undecodableProxy)) (World.start initialStore) =
        [.BadRequest "illegal base64 data at input byte 0"] ∧
      (Response.BadRequest "illegal base64 data at input byte 0").isError = true ∧
      ¬ ∃ err, Response.BadRequest "illegal base64 data at input byte 0" =
        .ErrorWithDetail sampleEnv.CodeErrInternalServer sampleEnv.ErrTypeInternalServer err :=
  ⟨by decide, by decide, fun ⟨_, h⟩ => Response.noConfusion h⟩

/-- C7, amended: for every handler of `setting.go`, the responses it writes are
appended to those already written, and every error response among them is the
one with `constant.CodeErrInternalServer` and `constant.ErrTypeInternalServer`,
except that `UpdateProxy`, for a request with non-empty password and type
whose password does not decode as base64, writes the bad-request response
carrying the decoding error. -/
theorem error_kind (env : Env σ) (h : Handler) (c : World σ) :
    (h.run env c).responses = c.responses ++ h.issued env c ∧
      ∀ x ∈ h.issued env c, x.isError = true →
        (∃ err, x = .ErrorWithDetail env.CodeErrInternalServer env.ErrTypeInternalServer err) ∨
        ∃ req err, h = .UpdateProxy (.ok req) ∧ req.ProxyPasswd ≠ "" ∧ req.ProxyType ≠ "" ∧
          env.DecodeString req.ProxyPasswd = .error err ∧ x = .BadRequest err := by
  obtain ⟨r, hr, hall⟩ := respond_run env h c
  have hi : h.issued env c = r := by
    rw [Handler.issued, hr, List.drop_left]
  rw [hi]
  exact ⟨hr, hall⟩

/-- Witness of C7, amended: the error response of `MFABind` for a rejected
code is the internal error. -/
theorem error_kind_witness :
    (Response.ErrorWithDetail 500 "ErrInternalServer" "code is not valid" ∈
        Handler.issued sampleEnv (.MFABind (.ok badBind)) (World.start initialStore) ∧
      (Response.ErrorWithDetail 500 "ErrInternalServer" "code is not valid").isError = true) ∧
      ((∃ err, Response.ErrorWithDetail 500 "ErrInternalServer" "code is not valid" =
          .ErrorWithDetail sampleEnv.CodeErrInternalServer sampleEnv.ErrTypeInternalServer err) ∨
        ∃ req err, Handler.MFABind (.ok badBind) = .UpdateProxy (.ok req) ∧
          req.ProxyPasswd ≠ "" ∧ req.ProxyType ≠ "" ∧
          sampleEnv.DecodeString req.ProxyPasswd = .error err ∧
          Response.ErrorWithDetail 500 "ErrInternalServer" "code is not valid" =
            .BadRequest err) :=
  ⟨by decide,
    (error_kind sampleEnv (.MFABind (.ok badBind)) (World.start initialStore)).2 _
      (by decide) (by decide)⟩

/-- C9: certificate export is read-only.  `DownloadSSL` targets the path
`path.Join(BaseDir, "1panel/secret/server.crt")`, which for a base directory
that is a clean rooted path of one element or more (as `/opt`) is the base
directory followed by `/1panel/secret/server.crt`; its only call is `os.Stat`
on that path; when `os.Stat` returns an error the one response is the error
response carrying it and no file is served, otherwise the one response is the
file at that path; in both cases the state behind the handler (filesystem and
settings store) is the prior one and no store write is issued. -/
theorem DownloadSSL_read_only (env : Env σ) (c : World σ) :
    (∀ pieces, pieces ≠ [] → (∀ piece ∈ pieces, path.plain piece) →
        env.BaseDir = path.rooted pieces →
        path.Join [env.BaseDir, "1panel/secret/server.crt"] =
          env.BaseDir ++ "/1panel/secret/server.crt") ∧
      (BaseApi.DownloadSSL env c).calls =
        c.calls ++ [.Stat (path.Join [env.BaseDir, "1panel/secret/server.crt"])] ∧
      (BaseApi.DownloadSSL env c).state = c.state ∧
      (BaseApi.DownloadSSL env c).writes = c.writes ∧
      (∀ err, env.Stat (path.Join [env.BaseDir, "1panel/secret/server.crt"]) c.state = some err →
        (BaseApi.DownloadSSL env c).responses = c.responses ++
          [.ErrorWithDetail env.CodeErrInternalServer env.ErrTypeInternalServer err]) ∧
      (env.Stat (path.Join [env.BaseDir, "1panel/secret/server.crt"]) c.state = none →
        (BaseApi.DownloadSSL env c).responses = c.responses ++
          [.File (path.Join [env.BaseDir, "1panel/secret/server.crt"])]) := by
  constructor
  · intro pieces hne hplain hbase
    rw [hbase]
    exact Join_rooted pieces hne hplain
  · simp only [BaseApi.DownloadSSL, os.Stat]
    rcases env.Stat (path.Join [env.BaseDir, "1panel/secret/server.crt"]) c.state with
      _ | err <;>
      simp [helper.ErrorWithDetail, World.File, World.respond, World.called, World.writes]

/-- Witness of C9: with the base directory `/opt` the path is
`/opt/1panel/secret/server.crt`; the certificate is served when it exists and
the error of `os.Stat` is reported when it is missing. -/
theorem DownloadSSL_read_only_witness :
    (noCertEnv.BaseDir = path.rooted ["opt".data] ∧
      noCertEnv.Stat (path.Join [noCertEnv.BaseDir, "1panel/secret/server.crt"])
        (World.start initialStore).state = some "no such file or directory") ∧
      path.Join [noCertEnv.BaseDir, "1panel/secret/server.crt"] =
        noCertEnv.BaseDir ++ "/1panel/secret/server.crt" ∧
      (BaseApi.DownloadSSL sampleEnv (World.start initialStore)).responses =
        [.File "/opt/1panel/secret/server.crt"] ∧
      (BaseApi.DownloadSSL noCertEnv (World.start initialStore)).responses =
        (World.start initialStore).responses ++
          [.ErrorWithDetail noCertEnv.CodeErrInternalServer noCertEnv.ErrTypeInternalServer
            "no such file or directory"] :=
  ⟨by decide,
    (DownloadSSL_read_only noCertEnv (World.start initialStore)).1 ["opt".data]
      (by decide) (by decide) (by decide),
    by decide,
    (DownloadSSL_read_only noCertEnv (World.start initialStore)).2.2.2.2.1
      "no such file or directory" (by decide)⟩

/-- C10: password decoding of `UpdateProxy`.  For a validated request: when
`ProxyPasswd` and `ProxyType` are both non-empty and the password decodes, the
one call is `settingService.UpdateProxy` with the password replaced by its
decoding and every other field unchanged; when both are non-empty and the
password does not decode, the handler writes the bad-request response and
makes no call; when either is empty, the one call is
`settingService.UpdateProxy` with the request unchanged. -/
theorem UpdateProxy_password_decoding (env : Env σ) (req : dto.ProxyUpdate) (c : World σ) :
    (req.ProxyPasswd ≠ "" → req.ProxyType ≠ "" →
        ∀ pass, env.DecodeString req.ProxyPasswd = .ok pass →
          (BaseApi.UpdateProxy env (.ok req) c).calls =
            c.calls ++ [.service (.UpdateProxy
              { ProxyUrl := req.ProxyUrl, ProxyType := req.ProxyType,
                ProxyPort := req.ProxyPort, ProxyPasswd := pass })]) ∧
      (req.ProxyPasswd ≠ "" → req.ProxyType ≠ "" →
        ∀ err, env.DecodeString req.ProxyPasswd = .error err →
          (BaseApi.UpdateProxy env (.ok req) c).calls = c.calls ∧
          (BaseApi.UpdateProxy env (.ok req) c).state = c.state ∧
          (BaseApi.UpdateProxy env (.ok req) c).responses =
            c.responses ++ [.BadRequest err]) ∧
      (req.ProxyPasswd = "" ∨ req.ProxyType = "" →
        (BaseApi.UpdateProxy env (.ok req) c).calls =
          c.calls ++ [.service (.UpdateProxy req)]) := by
  have hcall : ∀ r : dto.ProxyUpdate,
      (match settingService.call env (.UpdateProxy r) c with
        | (.error err, c) =>
          helper.ErrorWithDetail c env.CodeErrInternalServer env.ErrTypeInternalServer err
        | (.ok _, c) => helper.SuccessWithData c none).calls =
        c.calls ++ [.service (.UpdateProxy r)] := by
    intro r
    simp only [settingService.call]
    rcases env.settingService (.UpdateProxy r) c.state with ⟨_ | _, s⟩ <;>
      simp [helper.ErrorWithDetail, helper.SuccessWithData, World.respond, World.called]
  refine ⟨?_, ?_, ?_⟩
  · intro hp ht pass hdec
    have hboth : req.ProxyPasswd.length ≠ 0 ∧ req.ProxyType.length ≠ 0 :=
      ⟨(length_ne_zero_iff _).2 hp, (length_ne_zero_iff _).2 ht⟩
    simp only [BaseApi.UpdateProxy, if_pos hboth, hdec]
    exact hcall _
  · intro hp ht err hdec
    have hboth : req.ProxyPasswd.length ≠ 0 ∧ req.ProxyType.length ≠ 0 :=
      ⟨(length_ne_zero_iff _).2 hp, (length_ne_zero_iff _).2 ht⟩
    simp only [BaseApi.UpdateProxy, if_pos hboth, hdec]
    simp [helper.BadRequest, World.respond]
  · intro hempty
    have hboth : ¬ (req.ProxyPasswd.length ≠ 0 ∧ req.ProxyType.length ≠ 0) := by
      rintro ⟨h1, h2⟩
      rcases hempty with h | h
      · exact (length_ne_zero_iff _).1 h1 h
      · exact (length_ne_zero_iff _).1 h2 h
    simp only [BaseApi.UpdateProxy, if_neg hboth]
    exact hcall _

/-- Witness of C10: a request with proxy type `http` and the password
`cGFzcw==`, which the service receives as `pass`. -/
theorem UpdateProxy_password_decoding_witness :
    (encodedProxy.ProxyPasswd ≠ "" ∧ encodedProxy.ProxyType ≠ "" ∧
      sampleEnv.DecodeString encodedProxy.ProxyPasswd = .ok "pass") ∧
      (BaseApi.UpdateProxy sampleEnv (.ok encodedProxy) (World.start initialStore)).calls =
        (World.start initialStore).calls ++ [.service (.UpdateProxy
          { ProxyUrl := encodedProxy.ProxyUrl, ProxyType := encodedProxy.ProxyType,
            ProxyPort := encodedProxy.ProxyPort, ProxyPasswd := "pass" })] :=
  ⟨⟨by decide, by decide, rfl⟩,
    (UpdateProxy_password_decoding sampleEnv encodedProxy (World.start initialStore)).1
      (by decide) (by decide) "pass" rfl⟩
